import Mathlib

/-!
Verification development for the OPT serving core (`coh/models/opt/opt_serve.py`).

The file shallowly embeds the request-execution logic of the server:
tokenized batch construction for likelihood scoring, the sliding-window
rolling scorer, the constrained greedy-until generation loop, and the
threading of the shared RNG state through executor invocations.

External collaborators (the transformer forward/generate kernels, the
tokenizer's text-to-ids map) are abstracted as function-valued fields of an
`Env` record; everything built on top of them is translated directly from
the source.  Arrays are modelled row-wise (`List Nat`): every numpy array
in the source has leading batch dimension 1 per text, and all operations
are per-row concatenations and slices.
-/

namespace OptServe

/-- Python list slice `l[i : i + len]`. -/
def listSlice (i len : Nat) (l : List Nat) : List Nat :=
  (l.drop i).take len

/-- Zero the first `n` entries of a mask row (numpy `m[:, :n] = 0`). -/
def zeroFirst (n : Nat) (l : List Nat) : List Nat :=
  (l.take n).map (fun _ => 0) ++ l.drop n

/-- Whether `s` is a prefix of `t` (character lists). -/
def startsWith : List Char → List Char → Bool
  | [], _ => true
  | _ :: _, [] => false
  | a :: s, b :: t => a = b && startsWith s t

/-- Index of the first occurrence of `s` as a substring of `t`
(Python `t.find(s)`, `none` when `s not in t`). -/
def firstMatchIdx (s : List Char) : List Char → Option Nat
  | [] => if startsWith s [] then some 0 else none
  | b :: t' =>
    if startsWith s (b :: t') then some 0
    else (firstMatchIdx s t').map (· + 1)

/-- Python `t.split(s, maxsplit=1)[0]`: the text before the first occurrence
of `s`, or all of `t` when `s` does not occur. -/
def splitFirstLeft (s t : List Char) : List Char :=
  match firstMatchIdx s t with
  | some i => t.take i
  | none => t

/-- Python `range(0, stop, step)` for positive `step`: the start offsets of
the sliding-window loop. -/
def pyRange (stop step : Nat) : List Nat :=
  (List.range ((stop + step - 1) / step)).map (· * step)

/-- Result of a HuggingFace tokenizer call: ids plus attention mask. -/
structure Tokenized where
  input_ids : List Nat
  attention_mask : List Nat
deriving DecidableEq

/-- Tokenizer output under `padding="max_length"`, `truncation=True` with
`truncation_side="left"`, `padding_side="left"` (the server's
`prefix_tokenizer`), applied to already-encoded raw ids. -/
def padTruncLeft (padId maxLen : Nat) (raw : List Nat) : Tokenized :=
  if maxLen ≤ raw.length then
    ⟨raw.drop (raw.length - maxLen), List.replicate maxLen 1⟩
  else
    ⟨List.replicate (maxLen - raw.length) padId ++ raw,
     List.replicate (maxLen - raw.length) 0 ++ List.replicate raw.length 1⟩

/-- Tokenizer output under `padding="max_length"`, `truncation=True` with
`truncation_side="right"`, `padding_side="right"` (the server's `tokenizer`),
applied to already-encoded raw ids. -/
def padTruncRight (padId maxLen : Nat) (raw : List Nat) : Tokenized :=
  if maxLen ≤ raw.length then
    ⟨raw.take maxLen, List.replicate maxLen 1⟩
  else
    ⟨raw ++ List.replicate (maxLen - raw.length) padId,
     List.replicate raw.length 1 ++ List.replicate (maxLen - raw.length) 0⟩

/-- The four parallel arrays handed to `forward_loglikelihood` (one row). -/
structure Batch where
  input_tokens : List Nat
  output_tokens : List Nat
  input_mask : List Nat
  output_mask : List Nat
deriving DecidableEq

/-- The two parallel arrays handed to `forward_generate` and
`forward_greedy_generate` (one row). -/
structure GenBatch where
  input_tokens : List Nat
  attention_mask : List Nat
deriving DecidableEq

/-- The full-length arrays prepared by `loglikelihood_rolling` before the
sliding-window loop (lines 245-272 of the source). -/
structure RollingArrays where
  input_tokens : List Nat
  output_tokens : List Nat
  attention_mask : List Nat
deriving DecidableEq

/-- Session environment: the configuration flags fixed at startup together
with the external collaborators (tokenizer encode/decode and the three
pjit-compiled executor entry points).  `nextRng` is the deterministic
advance of the rng key performed inside each executor call by `JaxRNG`;
`execLL`, `execGen`, `execGreedy` are the numeric results, which may depend
on both the rng passed in and the batch. -/
structure Env (Rng : Type) where
  seq_length : Nat
  input_length : Nat
  pad_id : Nat
  bos_id : Nat
  add_bos : Bool
  eos_text : List Char
  encode : List Char → List Nat
  decode : List Nat → List Char
  execLL : Rng → Batch → ℚ × Bool
  execGen : Rng → GenBatch → List Nat
  execGreedy : Rng → GenBatch → List Nat
  nextRng : Rng → Rng

variable {Rng : Type}

/-- The same environment with the `loglikelihood_add_bos_token` flag
replaced by `b` and every other field unchanged. -/
def envWithBos (env : Env Rng) (b : Bool) : Env Rng :=
  ⟨env.seq_length, env.input_length, env.pad_id, env.bos_id, b, env.eos_text,
   env.encode, env.decode, env.execLL, env.execGen, env.execGreedy, env.nextRng⟩

/-- Batch construction of `OPTServer.loglikelihood` (lines 198-234): the
prefix is left-padded/left-truncated to `input_length`, the continuation
right-padded/right-truncated to `seq_length - input_length`; `input_tokens`
prepends the bos token and drops the last output token; `input_mask` is the
concatenated attention masks shifted right with a flag-controlled bos bit;
`output_mask` zeroes the prefix region. -/
def loglikelihoodBatch (env : Env Rng) (pfxRaw contRaw : List Nat) : Batch :=
  let pfx := padTruncLeft env.pad_id env.input_length pfxRaw
  let conts := padTruncRight env.pad_id (env.seq_length - env.input_length) contRaw
  let output_tokens := pfx.input_ids ++ conts.input_ids
  let input_tokens := env.bos_id :: output_tokens.dropLast
  let maskConcat := pfx.attention_mask ++ conts.attention_mask
  let bosMask := (maskConcat.take 1).map (fun _ => if env.add_bos then 1 else 0)
  let input_mask := bosMask ++ maskConcat.dropLast
  let output_mask := pfx.attention_mask.map (fun _ => 0) ++ conts.attention_mask
  ⟨input_tokens, output_tokens, input_mask, output_mask⟩

/-- `OPTServer.loglikelihood` (lines 196-240): build the batch, invoke the
executor once with the current rng, store the advanced rng.  The result is
the executor's answer, the new stored rng, and the trace of rng values
observed by executor invocations. -/
def loglikelihoodOp (env : Env Rng) (pfxRaw contRaw : List Nat) (r : Rng) :
    (ℚ × Bool) × Rng × List Rng :=
  (env.execLL r (loglikelihoodBatch env pfxRaw contRaw), env.nextRng r, [r])

/-- Array preparation of `OPTServer.loglikelihood_rolling` (lines 245-272):
tokenize without truncation (mask all ones), right-pad with pad tokens and
zero mask bits up to `seq_length` if shorter, and derive the bos-shifted
`input_tokens`.  The all-ones `bos_mask` built at line 271 of the source is
never used and is therefore not part of the prepared arrays. -/
def rollingArrays (env : Env Rng) (raw : List Nat) : RollingArrays :=
  let mask0 := raw.map (fun _ => 1)
  let output_tokens :=
    if raw.length < env.seq_length then
      raw ++ List.replicate (env.seq_length - raw.length) env.pad_id
    else raw
  let attention_mask :=
    if raw.length < env.seq_length then
      mask0 ++ List.replicate (env.seq_length - raw.length) 0
    else mask0
  ⟨env.bos_id :: output_tokens.dropLast, output_tokens, attention_mask⟩

/-- One window of the sliding-window loop (lines 277-297), at start offset
`i`.  A final window (`i + seq_length > total`) takes the last `seq_length`
entries of every array and zeroes the output mask on all but the newly
revealed tail positions (`last_output_mask[:, : i - total] = 0` with a
negative endpoint); a normal window takes the exact slice
`[i, i + seq_length)` with the attention-mask slice as both masks. -/
def windowAt (seq : Nat) (it ot am : List Nat) (i : Nat) : Batch :=
  let total := ot.length
  if total < i + seq then
    let lastMask := am.drop (am.length - seq)
    ⟨it.drop (it.length - seq), ot.drop (total - seq), lastMask,
     zeroFirst (seq + i - total) lastMask⟩
  else
    ⟨listSlice i seq it, listSlice i seq ot, listSlice i seq am, listSlice i seq am⟩

/-- The list of window batches produced by the loop
`for i in range(0, total_seq_length, seq_length)` of
`loglikelihood_rolling`. -/
def rollingWindows (env : Env Rng) (raw : List Nat) : List Batch :=
  let A := rollingArrays env raw
  (pyRange A.output_tokens.length env.seq_length).map
    (windowAt env.seq_length A.input_tokens A.output_tokens A.attention_mask)

/-- The accumulation loop of `loglikelihood_rolling` (lines 299-308): each
window consumes the current rng, the executor's next state replaces it, the
loglikelihoods are summed and the greedy flags conjoined.  Also returns the
trace of rng values observed by the invocations. -/
def windowsFold (env : Env Rng) :
    List Batch → Rng → ℚ → Bool → (ℚ × Bool) × Rng × List Rng
  | [], r, acc, g => ((acc, g), r, [])
  | b :: bs, r, acc, g =>
    let x := env.execLL r b
    let rest := windowsFold env bs (env.nextRng r) (acc + x.1) (x.2 && g)
    (rest.1, rest.2.1, r :: rest.2.2)

/-- `OPTServer.loglikelihood_rolling` (lines 243-310), starting from
`total_loglikelihood = 0.0` and `total_is_greedy = True`. -/
def loglikelihoodRollingOp (env : Env Rng) (raw : List Nat) (r : Rng) :
    (ℚ × Bool) × Rng × List Rng :=
  windowsFold env (rollingWindows env raw) r 0 true

/-- Batch construction of `OPTServer.generate` (lines 315-325). -/
def generateBatch (env : Env Rng) (raw : List Nat) : GenBatch :=
  let t := padTruncLeft env.pad_id env.input_length raw
  ⟨t.input_ids, t.attention_mask⟩

/-- Post-processing of `OPTServer.generate` (lines 330-333): cut the decoded
text at the eos marker when present. -/
def eosTrim (env : Env Rng) (t : List Char) : List Char :=
  if (firstMatchIdx env.eos_text t).isSome then splitFirstLeft env.eos_text t else t

/-- `OPTServer.generate` (lines 312-335) for one text row. -/
def generateOp (env : Env Rng) (raw : List Nat) (r : Rng) :
    List Char × Rng × List Rng :=
  (eosTrim env (env.decode (env.execGen r (generateBatch env raw))),
   env.nextRng r, [r])

/-- Per-iteration batch construction of `greedy_until` (lines 348-376):
tokenize the live prefix without padding, then left-pad with pad tokens and
zero mask bits when shorter than `input_length`, or keep only the last
`input_length` tokens when longer. -/
def greedyBatch (env : Env Rng) (pf : List Char) : GenBatch :=
  let ids := env.encode pf
  let mask := ids.map (fun _ => 1)
  if ids.length < env.input_length then
    ⟨List.replicate (env.input_length - ids.length) env.pad_id ++ ids,
     List.replicate (env.input_length - ids.length) 0 ++ mask⟩
  else if env.input_length < ids.length then
    ⟨ids.drop (ids.length - env.input_length), mask.drop (mask.length - env.input_length)⟩
  else ⟨ids, mask⟩

/-- The stop-string pass of `greedy_until` (lines 389-393): for each stop
string in list order, if it occurs in the accumulated text, truncate the
accumulated text before its first occurrence and set `done`. -/
def stopPass (stops : List (List Char)) (tg : List Char) : List Char × Bool :=
  stops.foldl
    (fun acc s =>
      if (firstMatchIdx s acc.1).isSome then (splitFirstLeft s acc.1, true) else acc)
    (tg, false)

/-- The `while total_length < max_length` loop of `greedy_until`
(lines 347-395) for one (prefix, stop-set) pair, instrumented with the trace
of rng values observed by executor invocations.  `fuel` bounds the number of
iterations the model unfolds; a run that would iterate beyond the fuel
yields `none` (the Python loop itself has no such bound and would simply
keep running). -/
def greedyLoop (env : Env Rng) (stops : List (List Char)) (ml : Int) :
    Nat → List Char → List Char → Int → Rng → Option (List Char) × Rng × List Rng
  | 0, _, tg, tl, r => (if tl < ml then none else some tg, r, [])
  | fuel + 1, pf, tg, tl, r =>
    if tl < ml then
      let out := env.execGreedy r (greedyBatch env pf)
      let txt := env.decode out
      let tg1 := tg ++ txt
      let sp := stopPass stops tg1
      if sp.2 then (some sp.1, env.nextRng r, [r])
      else
        let rest :=
          greedyLoop env stops ml fuel (pf ++ txt) sp.1 (tl + out.length) (env.nextRng r)
        (rest.1, rest.2.1, r :: rest.2.2)
    else (some tg, r, [])

/-- A stop specification as accepted by `greedy_until`: a bare string is
normalized to a one-element list (lines 342-343). -/
inductive StopSpec where
  | one (s : List Char)
  | many (ss : List (List Char))
deriving DecidableEq

/-- Normalization `if isinstance(ut, str): ut = [ut]`. -/
def StopSpec.toList : StopSpec → List (List Char)
  | .one s => [s]
  | .many ss => ss

/-- `OPTServer.greedy_until` (lines 337-399): run the loop for each
(prefix, stop-spec) pair sequentially, threading the stored rng, and
collect the per-pair outputs and the concatenated invocation trace. -/
def greedyUntilOp (env : Env Rng) :
    List (List Char × StopSpec) → Int → Rng →
      List (Option (List Char)) × Rng × List Rng
  | [], _, r => ([], r, [])
  | (pf, ut) :: rest, ml, r =>
    let res := greedyLoop env ut.toList ml ml.toNat pf [] 0 r
    let restRes := greedyUntilOp env rest ml res.2.1
    (res.1 :: restRes.1, restRes.2.1, res.2.2 ++ restRes.2.2)

/-- Ceiling of `ml / L` for an integer bound and positive per-call output
length, as a natural number of iterations. -/
def iterCeil (ml : Int) (L : Nat) : Nat :=
  (ml.toNat + L - 1) / L

/-- Modelled from the spec: the position of the earliest occurrence of any
stop string of the set in the accumulated text ("truncated at the first
occurrence of any stop string").  This is the spec's reading of the stop
pass, used to compare against the source's successive-splitting `stopPass`. -/
def earliestStopIdx (stops : List (List Char)) (t : List Char) : Option Nat :=
  stops.foldr
    (fun s acc =>
      match firstMatchIdx s t, acc with
      | some i, some j => some (min i j)
      | some i, none => some i
      | none, o => o)
    none

/-- Modelled from the spec: truncate the accumulated text immediately before
the earliest occurrence of any stop string of the set. -/
def specStopPass (stops : List (List Char)) (t : List Char) : List Char × Bool :=
  match earliestStopIdx stops t with
  | some i => (t.take i, true)
  | none => (t, false)

/-- Modelled from the spec: the `greedy_until` loop with the stop pass
replaced by truncation at the earliest occurrence of any stop string. -/
def specGreedyLoop (env : Env Rng) (stops : List (List Char)) (ml : Int) :
    Nat → List Char → List Char → Int → Rng → Option (List Char) × Rng × List Rng
  | 0, _, tg, tl, r => (if tl < ml then none else some tg, r, [])
  | fuel + 1, pf, tg, tl, r =>
    if tl < ml then
      let out := env.execGreedy r (greedyBatch env pf)
      let txt := env.decode out
      let tg1 := tg ++ txt
      let sp := specStopPass stops tg1
      if sp.2 then (some sp.1, env.nextRng r, [r])
      else
        let rest :=
          specGreedyLoop env stops ml fuel (pf ++ txt) sp.1 (tl + out.length) (env.nextRng r)
        (rest.1, rest.2.1, r :: rest.2.2)
    else (some tg, r, [])

/-- The `greedy_until` loop with an empty stop machinery: the only exit is
the length bound.  Used to state that an empty stop set never terminates the
loop through a stop match. -/
def noStopLoop (env : Env Rng) (ml : Int) :
    Nat → List Char → List Char → Int → Rng → Option (List Char) × Rng × List Rng
  | 0, _, tg, tl, r => (if tl < ml then none else some tg, r, [])
  | fuel + 1, pf, tg, tl, r =>
    if tl < ml then
      let out := env.execGreedy r (greedyBatch env pf)
      let txt := env.decode out
      let rest := noStopLoop env ml fuel (pf ++ txt) (tg ++ txt) (tl + out.length) (env.nextRng r)
      (rest.1, rest.2.1, r :: rest.2.2)
    else (some tg, r, [])

/-- The accumulation loop of `loglikelihood_rolling` against a fallible
executor: a raised exception inside `forward_loglikelihood` propagates
(`none`) before the assignment to `sharded_rng` executes, so the stored rng
stays at its value from before the failing invocation. -/
def windowsFoldF (execF : Rng → Batch → Option (ℚ × Bool)) (f : Rng → Rng) :
    List Batch → Rng → ℚ → Bool → Option (ℚ × Bool) × Rng
  | [], r, acc, g => (some (acc, g), r)
  | b :: bs, r, acc, g =>
    match execF r b with
    | none => (none, r)
    | some x => windowsFoldF execF f bs (f r) (acc + x.1) (x.2 && g)

/-- `loglikelihood_rolling` against a fallible executor. -/
def loglikelihoodRollingF (env : Env Rng) (execF : Rng → Batch → Option (ℚ × Bool))
    (raw : List Nat) (r : Rng) : Option (ℚ × Bool) × Rng :=
  windowsFoldF execF env.nextRng (rollingWindows env raw) r 0 true

/-- One request against the session: the four server operations with their
inputs (texts already encoded to raw ids where the operation tokenizes them
directly; `genUntil` carries live text since the loop re-tokenizes the
growing prefix). -/
inductive Op where
  | score (pfxRaw contRaw : List Nat)
  | scoreRolling (raw : List Nat)
  | gen (raw : List Nat)
  | genUntil (pairs : List (List Char × StopSpec)) (ml : Int)

/-- Run one operation against the stored rng: the resulting stored rng and
the trace of rng values observed by the executor invocations it makes. -/
def runOp (env : Env Rng) : Op → Rng → Rng × List Rng
  | .score p c, r => (loglikelihoodOp env p c r).2
  | .scoreRolling t, r => (loglikelihoodRollingOp env t r).2
  | .gen t, r => (generateOp env t r).2
  | .genUntil ps ml, r => (greedyUntilOp env ps ml r).2

/-- A serialized run of operations against the session, threading the stored
rng and concatenating the invocation traces. -/
def runOps (env : Env Rng) : List Op → Rng → Rng × List Rng
  | [], r => (r, [])
  | op :: ops, r =>
    let s := runOp env op r
    let rest := runOps env ops s.1
    (rest.1, s.2 ++ rest.2)

/-- A small concrete session over `Rng := Nat` whose executor reports the
first input-mask bit (as loglikelihood value and greedy flag), used to
instantiate the universally quantified statements. -/
def envA : Env Nat :=
  ⟨4, 2, 9, 1, false, ['E'],
   fun s => List.replicate s.length 0,
   fun ts => List.replicate ts.length 'a',
   fun _ b => (((b.input_mask.headD 0 : Nat) : ℚ), b.input_mask.headD 0 = 1),
   fun _ _ => [0, 0],
   fun _ _ => [0, 0],
   Nat.succ⟩

/-- A concrete session whose greedy generation call always decodes to the
text `abXcd`, used to instantiate the generation-loop statements. -/
def envC2 : Env Nat :=
  ⟨4, 2, 9, 1, false, ['E'],
   fun s => List.replicate s.length 0,
   fun _ => ['a', 'b', 'X', 'c', 'd'],
   fun _ _ => (0, true),
   fun _ _ => [0, 0],
   fun _ _ => [0, 0],
   Nat.succ⟩

/-- A concrete session with `seq_length = 16`, matching the spec's 40-token
rolling-scoring scenario. -/
def env40 : Env Nat :=
  ⟨16, 2, 9, 1, false, ['E'],
   fun s => List.replicate s.length 0,
   fun ts => List.replicate ts.length 'a',
   fun _ _ => (0, true),
   fun _ _ => [0, 0],
   fun _ _ => [0, 0],
   Nat.succ⟩

/-- A concrete session with `seq_length = 2`, small enough to produce two
rolling windows from a 3-token text. -/
def envF : Env Nat :=
  ⟨2, 2, 9, 1, false, ['E'],
   fun s => List.replicate s.length 0,
   fun ts => List.replicate ts.length 'a',
   fun _ _ => (0, true),
   fun _ _ => [0, 0],
   fun _ _ => [0, 0],
   Nat.succ⟩

/-- A concrete serialized run of the four operations. -/
def opsA : List Op :=
  [Op.score [] [5, 6], Op.scoreRolling [1, 2, 3, 4, 5],
   Op.gen [7], Op.genUntil [([], StopSpec.one ['z'])] 3]

/-- A 40-token text row (already encoded). -/
def raw40 : List Nat := List.replicate 40 7

lemma succ_iterate (n m : Nat) : Nat.succ^[n] m = m + n := by
  induction n generalizing m with
  | zero => rfl
  | succ k ih => rw [Function.iterate_succ_apply, ih]; omega

lemma range_map_iterate_succ (f : Rng → Rng) (r : Rng) (n : Nat) :
    (List.range (n + 1)).map (fun i => f^[i] r) =
      r :: (List.range n).map (fun i => f^[i] (f r)) := by
  rw [List.range_succ_eq_map, List.map_cons, List.map_map]
  refine congrArg₂ _ (by simp) (List.map_congr_left fun i _ => ?_)
  exact Function.iterate_succ_apply f i r

lemma range_map_iterate_add (f : Rng → Rng) (r : Rng) (m n : Nat) :
    (List.range (m + n)).map (fun i => f^[i] r) =
      (List.range m).map (fun i => f^[i] r)
        ++ (List.range n).map (fun i => f^[i] (f^[m] r)) := by
  rw [List.range_add, List.map_append, List.map_map]
  refine congrArg₂ _ rfl (List.map_congr_left fun i _ => ?_)
  show f^[m + i] r = f^[i] (f^[m] r)
  rw [Nat.add_comm m i]
  exact Function.iterate_add_apply f i m r

lemma padTruncLeft_ids_length (p m : Nat) (raw : List Nat) :
    (padTruncLeft p m raw).input_ids.length = m := by
  unfold padTruncLeft
  split <;> simp <;> omega

lemma padTruncLeft_mask_length (p m : Nat) (raw : List Nat) :
    (padTruncLeft p m raw).attention_mask.length = m := by
  unfold padTruncLeft
  split <;> simp <;> omega

lemma padTruncRight_ids_length (p m : Nat) (raw : List Nat) :
    (padTruncRight p m raw).input_ids.length = m := by
  unfold padTruncRight
  split <;> simp <;> omega

lemma padTruncRight_mask_length (p m : Nat) (raw : List Nat) :
    (padTruncRight p m raw).attention_mask.length = m := by
  unfold padTruncRight
  split <;> simp <;> omega

lemma take_one_map_const (l : List Nat) (c : Nat) (h : l ≠ []) :
    (l.take 1).map (fun _ => c) = [c] := by
  cases l with
  | nil => exact absurd rfl h
  | cons a t => simp

lemma lt_ceil_iff (total seq j : Nat) (h : 1 ≤ seq) :
    j < (total + seq - 1) / seq ↔ j * seq < total := by
  rw [Nat.lt_iff_add_one_le, Nat.le_div_iff_mul_le h, Nat.add_mul, Nat.one_mul]
  omega

lemma le_ceil_mul (n L : Nat) (hL : 1 ≤ L) : n ≤ ((n + L - 1) / L) * L := by
  have h := Nat.div_add_mod (n + L - 1) L
  have h2 : (n + L - 1) % L < L := Nat.mod_lt _ hL
  have h3 : ((n + L - 1) / L) * L = L * ((n + L - 1) / L) := Nat.mul_comm _ _
  omega

lemma pyRange_length (stop step : Nat) :
    (pyRange stop step).length = (stop + step - 1) / step := by
  simp [pyRange]

lemma pyRange_getElem? (stop step j : Nat) (h : j < (stop + step - 1) / step) :
    (pyRange stop step)[j]? = some (j * step) := by
  simp [pyRange, List.getElem?_range h]

lemma zeroFirst_getElem?_lt (n : Nat) (l : List Nat) (k : Nat)
    (h1 : k < n) (h2 : k < l.length) :
    (zeroFirst n l)[k]? = some 0 := by
  unfold zeroFirst
  rw [List.getElem?_append_left (by simp; omega), List.getElem?_map,
    List.getElem?_take_of_lt h1, List.getElem?_eq_getElem h2]
  rfl

lemma rollingArrays_ot_length (env : Env Rng) (raw : List Nat) :
    (rollingArrays env raw).output_tokens.length = max raw.length env.seq_length := by
  unfold rollingArrays
  split <;> simp <;> omega

lemma rollingArrays_am_length (env : Env Rng) (raw : List Nat) :
    (rollingArrays env raw).attention_mask.length
      = (rollingArrays env raw).output_tokens.length := by
  unfold rollingArrays
  split <;> simp

lemma rollingArrays_seq_le (env : Env Rng) (raw : List Nat) :
    env.seq_length ≤ (rollingArrays env raw).output_tokens.length := by
  rw [rollingArrays_ot_length]; omega

lemma rollingArrays_it_length (env : Env Rng) (raw : List Nat)
    (h : 1 ≤ env.seq_length) :
    (rollingArrays env raw).input_tokens.length
      = (rollingArrays env raw).output_tokens.length := by
  have h2 := rollingArrays_seq_le env raw
  show ((rollingArrays env raw).output_tokens.dropLast.length) + 1 = _
  rw [List.length_dropLast]
  omega

lemma rollingArrays_it_head (env : Env Rng) (raw : List Nat) :
    (rollingArrays env raw).input_tokens[0]? = some env.bos_id := by
  unfold rollingArrays
  simp

lemma rollingWindows_getElem? (env : Env Rng) (raw : List Nat) (j : Nat)
    (hseq : 1 ≤ env.seq_length) :
    (rollingWindows env raw)[j]? =
      if j * env.seq_length < (rollingArrays env raw).output_tokens.length then
        some (windowAt env.seq_length (rollingArrays env raw).input_tokens
          (rollingArrays env raw).output_tokens (rollingArrays env raw).attention_mask
          (j * env.seq_length))
      else none := by
  unfold rollingWindows
  rw [List.getElem?_map]
  by_cases h : j * env.seq_length < (rollingArrays env raw).output_tokens.length
  · rw [if_pos h, pyRange_getElem? _ _ _ ((lt_ceil_iff _ _ _ hseq).mpr h)]
    rfl
  · rw [if_neg h]
    have hn : (pyRange (rollingArrays env raw).output_tokens.length env.seq_length)[j]? = none := by
      refine List.getElem?_eq_none ?_
      rw [pyRange_length]
      exact Nat.le_of_not_lt (fun hc => h ((lt_ceil_iff _ _ _ hseq).mp hc))
    rw [hn]
    rfl

/-- Claim C5: `loglikelihood` builds `output_tokens` as the prefix tokens
(left-padded/left-truncated to `input_length`) followed by the continuation
tokens (right-padded/right-truncated to `seq_length - input_length`);
`input_tokens` is a bos token followed by `output_tokens` with its last
token dropped; `input_mask` is the concatenated prefix/continuation
attention masks shifted right by one position with the injected first bit
set iff the `loglikelihood_add_bos_token` flag is set; and `output_mask` is
zero on every prefix position and equals the continuation attention mask on
continuation positions. -/
theorem claim5_score_batch_construction (env : Env Rng) (pfxRaw contRaw : List Nat)
    (h1 : 1 ≤ env.input_length) (h2 : env.input_length ≤ env.seq_length) :
    (loglikelihoodBatch env pfxRaw contRaw).output_tokens =
      (padTruncLeft env.pad_id env.input_length pfxRaw).input_ids
        ++ (padTruncRight env.pad_id (env.seq_length - env.input_length) contRaw).input_ids
    ∧ (padTruncLeft env.pad_id env.input_length pfxRaw).input_ids.length = env.input_length
    ∧ (padTruncRight env.pad_id (env.seq_length - env.input_length) contRaw).input_ids.length
        = env.seq_length - env.input_length
    ∧ (loglikelihoodBatch env pfxRaw contRaw).output_tokens.length = env.seq_length
    ∧ (loglikelihoodBatch env pfxRaw contRaw).input_tokens =
        env.bos_id :: (loglikelihoodBatch env pfxRaw contRaw).output_tokens.dropLast
    ∧ (loglikelihoodBatch env pfxRaw contRaw).input_mask =
        (if env.add_bos then 1 else 0)
          :: ((padTruncLeft env.pad_id env.input_length pfxRaw).attention_mask
              ++ (padTruncRight env.pad_id (env.seq_length - env.input_length) contRaw).attention_mask).dropLast
    ∧ (∀ j, j < env.input_length →
        (loglikelihoodBatch env pfxRaw contRaw).output_mask[j]? = some 0)
    ∧ (loglikelihoodBatch env pfxRaw contRaw).output_mask.drop env.input_length =
        (padTruncRight env.pad_id (env.seq_length - env.input_length) contRaw).attention_mask := by
  have hP := padTruncLeft_ids_length env.pad_id env.input_length pfxRaw
  have hPm := padTruncLeft_mask_length env.pad_id env.input_length pfxRaw
  have hC := padTruncRight_ids_length env.pad_id (env.seq_length - env.input_length) contRaw
  refine ⟨rfl, hP, hC, ?_, rfl, ?_, ?_, ?_⟩
  · show ((padTruncLeft env.pad_id env.input_length pfxRaw).input_ids
      ++ (padTruncRight env.pad_id (env.seq_length - env.input_length) contRaw).input_ids).length
        = env.seq_length
    rw [List.length_append, hP, hC]
    omega
  · show (((padTruncLeft env.pad_id env.input_length pfxRaw).attention_mask
        ++ (padTruncRight env.pad_id (env.seq_length - env.input_length) contRaw).attention_mask).take 1).map
          (fun _ => if env.add_bos then 1 else 0) ++ _ = _
    rw [take_one_map_const]
    · rfl
    · have : ((padTruncLeft env.pad_id env.input_length pfxRaw).attention_mask
        ++ (padTruncRight env.pad_id (env.seq_length - env.input_length) contRaw).attention_mask).length
          = env.input_length + (env.seq_length - env.input_length) := by
        rw [List.length_append, hPm, padTruncRight_mask_length]
      intro hc
      rw [hc] at this
      simp at this
      omega
  · intro j hj
    show ((padTruncLeft env.pad_id env.input_length pfxRaw).attention_mask.map (fun _ => 0)
      ++ (padTruncRight env.pad_id (env.seq_length - env.input_length) contRaw).attention_mask)[j]?
        = some 0
    rw [List.getElem?_append_left (by rw [List.length_map, hPm]; exact hj),
      List.getElem?_map, List.getElem?_eq_getElem (by rw [hPm]; exact hj)]
    rfl
  · show ((padTruncLeft env.pad_id env.input_length pfxRaw).attention_mask.map (fun _ => 0)
      ++ (padTruncRight env.pad_id (env.seq_length - env.input_length) contRaw).attention_mask).drop
        env.input_length = _
    have hd := List.drop_left
      ((padTruncLeft env.pad_id env.input_length pfxRaw).attention_mask.map
        (fun _ : Nat => (0 : Nat)))
      (padTruncRight env.pad_id (env.seq_length - env.input_length) contRaw).attention_mask
    rw [List.length_map, hPm] at hd
    exact hd

/-- Claim C9: with an empty stop-string set, the stop pass never fires (the
`done` flag is never set) and the `greedy_until` loop behaves exactly like
the loop whose only exit is the `total_length < max_length` bound. -/
theorem claim9_empty_stop_set (env : Env Rng) (ml : Int) :
    (∀ tg, stopPass [] tg = (tg, false))
    ∧ ∀ fuel pf tg tl r,
        greedyLoop env [] ml fuel pf tg tl r = noStopLoop env ml fuel pf tg tl r := by
  refine ⟨fun tg => rfl, ?_⟩
  intro fuel
  induction fuel with
  | zero => intro pf tg tl r; rfl
  | succ n ih =>
    intro pf tg tl r
    by_cases h : tl < ml
    · simp only [greedyLoop, noStopLoop, if_pos h, stopPass, List.foldl_nil]
      simp [ih]
    · simp only [greedyLoop, noStopLoop, if_neg h]

/-- Claim C10: when `max_length ≤ 0`, the `greedy_until` loop body never
runs for any (prefix, stop-set) pair: there is no executor invocation, the
stored rng is unchanged, and the empty string is appended to the outputs
for every pair. -/
theorem claim10_nonpositive_max_length (env : Env Rng)
    (pairs : List (List Char × StopSpec)) (ml : Int) (r : Rng) (h : ml ≤ 0) :
    greedyUntilOp env pairs ml r = (pairs.map (fun _ => some []), r, []) := by
  induction pairs generalizing r with
  | nil => rfl
  | cons p rest ih =>
    obtain ⟨pf, ut⟩ := p
    have htn : ml.toNat = 0 := Int.toNat_of_nonpos h
    have hloop : greedyLoop env ut.toList ml ml.toNat pf [] 0 r = (some [], r, []) := by
      rw [htn]
      simp [greedyLoop, Int.not_lt.mpr h]
    simp only [greedyUntilOp, hloop, ih r, List.map_cons]
    rfl

lemma stopPass_singleton (s t : List Char) : stopPass [s] t = specStopPass [s] t := by
  unfold stopPass specStopPass earliestStopIdx splitFirstLeft
  simp only [List.foldl_cons, List.foldl_nil, List.foldr_cons, List.foldr_nil]
  cases h : firstMatchIdx s t with
  | none => simp [h]
  | some i => simp [h]

/-- Claim C2 (amended): for a single stop string, the `greedy_until` loop
computes exactly what the spec's earliest-occurrence truncation computes:
it stops at the first occurrence of the stop string in the accumulated
generated text and returns the text ending immediately before it, or the
text generated up to the length bound when the stop string never occurs. -/
theorem claim2_single_stop_truncation (env : Env Rng) (s : List Char) (ml : Int) :
    ∀ fuel pf tg tl r,
      greedyLoop env [s] ml fuel pf tg tl r = specGreedyLoop env [s] ml fuel pf tg tl r := by
  intro fuel
  induction fuel with
  | zero => intro pf tg tl r; rfl
  | succ n ih =>
    intro pf tg tl r
    by_cases h : tl < ml
    · simp only [greedyLoop, specGreedyLoop, if_pos h, stopPass_singleton, ih]
    · simp only [greedyLoop, specGreedyLoop, if_neg h]

/-- Claim C2 counterexample: with stop set `["Xc", "bX"]` and one
generation call decoding to `abXcd`, `greedy_until` returns `ab` (it splits
at `Xc` first, destroying the earlier overlapping `bX` occurrence), while
the earliest occurrence of any stop string in the accumulated text is at
index 1, so the claim's required result is `a`. -/
theorem claim2_counterexample :
    (greedyUntilOp envC2 [([], StopSpec.many [['X', 'c'], ['b', 'X']])] 2 0).1
      = [some ['a', 'b']]
    ∧ earliestStopIdx [['X', 'c'], ['b', 'X']] ['a', 'b', 'X', 'c', 'd'] = some 1
    ∧ (specGreedyLoop envC2 [['X', 'c'], ['b', 'X']] 2 2 [] [] 0 0).1 = some ['a']
    ∧ [some ['a', 'b']] ≠ [some (['a', 'b', 'X', 'c', 'd'].take 1)] := by
  decide

lemma greedyLoop_isSome (env : Env Rng) (stops : List (List Char)) (ml : Int) (L : Nat)
    (hout : ∀ r' b, (env.execGreedy r' b).length = L) :
    ∀ fuel pf tg tl r, ml ≤ tl + ((fuel * L : Nat) : Int) →
      ((greedyLoop env stops ml fuel pf tg tl r).1).isSome = true := by
  intro fuel
  induction fuel with
  | zero =>
    intro pf tg tl r h
    simp only [Nat.zero_mul, Nat.cast_zero, Int.add_zero] at h
    simp only [greedyLoop, if_neg (Int.not_lt.mpr h)]
    rfl
  | succ n ih =>
    intro pf tg tl r h
    rw [Nat.succ_mul] at h
    by_cases h' : tl < ml
    · simp only [greedyLoop, if_pos h']
      split
      · rfl
      · show ((greedyLoop env stops ml n _ _ _ _).1).isSome = true
        refine ih _ _ _ _ ?_
        rw [hout r (greedyBatch env pf)]
        push_cast at h ⊢
        omega
    · simp only [greedyLoop, if_neg h']
      rfl

lemma greedyLoop_stable (env : Env Rng) (stops : List (List Char)) (ml : Int) (L : Nat)
    (hout : ∀ r' b, (env.execGreedy r' b).length = L) :
    ∀ fuel pf tg tl r, ml ≤ tl + ((fuel * L : Nat) : Int) → ∀ d,
      greedyLoop env stops ml (fuel + d) pf tg tl r
        = greedyLoop env stops ml fuel pf tg tl r := by
  intro fuel
  induction fuel with
  | zero =>
    intro pf tg tl r h d
    simp only [Nat.zero_mul, Nat.cast_zero, Int.add_zero] at h
    have hge : ¬ tl < ml := Int.not_lt.mpr h
    cases d with
    | zero => rfl
    | succ k =>
      rw [Nat.zero_add]
      simp only [greedyLoop, if_neg hge]
  | succ n ih =>
    intro pf tg tl r h d
    rw [Nat.succ_mul] at h
    have hshift : n + 1 + d = (n + d) + 1 := by omega
    rw [hshift]
    by_cases h' : tl < ml
    · simp only [greedyLoop, if_pos h']
      split
      · rfl
      · have hrec := ih (pf ++ env.decode (env.execGreedy r (greedyBatch env pf)))
          ((stopPass stops (tg ++ env.decode (env.execGreedy r (greedyBatch env pf)))).1)
          (tl + (env.execGreedy r (greedyBatch env pf)).length) (env.nextRng r) ?_ d
        · rw [hrec]
        · rw [hout r (greedyBatch env pf)]
          push_cast at h ⊢
          omega
    · simp only [greedyLoop, if_neg h']

/-- Claim C7: with a fixed positive per-call output length `L`, the
`greedy_until` loop for one (prefix, stop-set) pair finishes within
`ceil(max_length / L)` iterations: unfolding that many iterations already
yields a result, and allowing any larger iteration budget changes
nothing. -/
theorem claim7_iteration_bound (env : Env Rng) (stops : List (List Char)) (ml : Int)
    (pf : List Char) (r : Rng) (L : Nat) (hL : 1 ≤ L)
    (hout : ∀ r' b, (env.execGreedy r' b).length = L) :
    ((greedyLoop env stops ml (iterCeil ml L) pf [] 0 r).1).isSome = true
    ∧ ∀ fuel, iterCeil ml L ≤ fuel →
        greedyLoop env stops ml fuel pf [] 0 r
          = greedyLoop env stops ml (iterCeil ml L) pf [] 0 r := by
  have harith : ml ≤ 0 + ((iterCeil ml L * L : Nat) : Int) := by
    unfold iterCeil
    have h := le_ceil_mul ml.toNat L hL
    omega
  refine ⟨greedyLoop_isSome env stops ml L hout _ pf [] 0 r harith, ?_⟩
  intro fuel hf
  obtain ⟨d, rfl⟩ := Nat.exists_eq_add_of_le hf
  exact greedyLoop_stable env stops ml L hout _ pf [] 0 r harith d

/-- Claim C7 witness: a concrete loop with per-call output length 2 and
`max_length = 5` finishes within `ceil(5 / 2) = 3` iterations. -/
theorem claim7_witness :
    ((greedyLoop envC2 [['z']] 5 (iterCeil 5 2) [] [] 0 0).1).isSome = true :=
  (claim7_iteration_bound envC2 [['z']] 5 [] 0 2 (by decide) (fun _ _ => rfl)).1

/-- Claim C3: the rolling scorer iterates window start offsets
`0, seq_length, 2*seq_length, ...` over the padded token sequence; every
non-final window is the exact slice `[i, i + seq_length)` with the
attention-mask slice as both input and output mask; the final window, taken
when `i + seq_length` exceeds the total length, consists of the last
`seq_length` entries of each array with its output mask zeroed on all but
the last `total - i` positions, so only the newly revealed tail positions
are scored. -/
theorem claim3_window_structure (env : Env Rng) (raw : List Nat)
    (hseq : 1 ≤ env.seq_length) :
    (rollingWindows env raw).length
      = ((rollingArrays env raw).output_tokens.length + env.seq_length - 1)
          / env.seq_length
    ∧ (∀ j, j * env.seq_length + env.seq_length
          ≤ (rollingArrays env raw).output_tokens.length →
        (rollingWindows env raw)[j]? = some
          ⟨listSlice (j * env.seq_length) env.seq_length (rollingArrays env raw).input_tokens,
           listSlice (j * env.seq_length) env.seq_length (rollingArrays env raw).output_tokens,
           listSlice (j * env.seq_length) env.seq_length (rollingArrays env raw).attention_mask,
           listSlice (j * env.seq_length) env.seq_length (rollingArrays env raw).attention_mask⟩)
    ∧ (∀ j, j * env.seq_length < (rollingArrays env raw).output_tokens.length →
        (rollingArrays env raw).output_tokens.length < j * env.seq_length + env.seq_length →
        (rollingWindows env raw)[j]? = some
          ⟨(rollingArrays env raw).input_tokens.drop
              ((rollingArrays env raw).input_tokens.length - env.seq_length),
           (rollingArrays env raw).output_tokens.drop
              ((rollingArrays env raw).output_tokens.length - env.seq_length),
           (rollingArrays env raw).attention_mask.drop
              ((rollingArrays env raw).attention_mask.length - env.seq_length),
           zeroFirst
             (env.seq_length + j * env.seq_length
               - (rollingArrays env raw).output_tokens.length)
             ((rollingArrays env raw).attention_mask.drop
               ((rollingArrays env raw).attention_mask.length - env.seq_length))⟩)
    ∧ (∀ (j k : Nat) (w : Batch), (rollingWindows env raw)[j]? = some w →
        (rollingArrays env raw).output_tokens.length < j * env.seq_length + env.seq_length →
        k < env.seq_length + j * env.seq_length
            - (rollingArrays env raw).output_tokens.length →
        w.output_mask[k]? = some 0) := by
  have ham := rollingArrays_am_length env raw
  have hle := rollingArrays_seq_le env raw
  refine ⟨?_, ?_, ?_, ?_⟩
  · show ((pyRange (rollingArrays env raw).output_tokens.length env.seq_length).map _).length = _
    rw [List.length_map, pyRange_length]
  · intro j hj
    rw [rollingWindows_getElem? env raw j hseq, if_pos (by omega)]
    refine congrArg _ ?_
    unfold windowAt
    rw [if_neg (by omega)]
  · intro j hj1 hj2
    rw [rollingWindows_getElem? env raw j hseq, if_pos hj1]
    refine congrArg _ ?_
    unfold windowAt
    rw [if_pos hj2]
  · intro j k w hw hfin hk
    rw [rollingWindows_getElem? env raw j hseq] at hw
    by_cases hj : j * env.seq_length < (rollingArrays env raw).output_tokens.length
    · rw [if_pos hj] at hw
      obtain rfl := (Option.some_inj.mp hw).symm
      unfold windowAt
      rw [if_pos hfin]
      refine zeroFirst_getElem?_lt _ _ _ hk ?_
      rw [List.length_drop, ham]
      omega
    · rw [if_neg hj] at hw
      exact absurd hw (by simp)

/-- Claim C3 witness: the spec's 40-token scenario with `seq_length = 16`
yields exactly 3 windows and the third window's output mask zeroes its
first 8 positions; the count equals the general formula, instantiated
through the theorem. -/
theorem claim3_witness :
    (rollingWindows env40 raw40).length = 3
    ∧ ((rollingWindows env40 raw40).getD 2 ⟨[], [], [], []⟩).output_mask
        = [0, 0, 0, 0, 0, 0, 0, 0, 1, 1, 1, 1, 1, 1, 1, 1]
    ∧ (rollingWindows env40 raw40).length
        = ((rollingArrays env40 raw40).output_tokens.length + env40.seq_length - 1)
            / env40.seq_length :=
  ⟨by decide, by decide, (claim3_window_structure env40 raw40 (by decide)).1⟩

lemma windowsFold_envWithBos (env : Env Rng) (b : Bool) :
    ∀ (bs : List Batch) (r : Rng) (acc : ℚ) (g : Bool),
      windowsFold (envWithBos env b) bs r acc g = windowsFold env bs r acc g := by
  intro bs
  induction bs with
  | nil => intro r acc g; rfl
  | cons x xs ih =>
    intro r acc g
    simp only [windowsFold]
    rw [ih]
    rfl

/-- Claim C4: in the rolling scorer the `input_mask` of every window batch
is a contiguous slice of the original, unshifted tokenizer attention mask,
even though the input tokens are the bos-shifted sequence (so the last
original token never appears among the input tokens); the all-ones
`bos_mask` built locally is never placed in any batch: the mask bit of the
first window's beginning-of-sequence position equals the first original
token's attention bit (which is 1), and the whole rolling computation is
independent of the `loglikelihood_add_bos_token` flag. -/
theorem claim4_rolling_unshifted_input_mask (env : Env Rng) (raw : List Nat)
    (hseq : 1 ≤ env.seq_length) (hraw : raw ≠ []) :
    (rollingArrays env raw).input_tokens
        = env.bos_id :: (rollingArrays env raw).output_tokens.dropLast
    ∧ (∀ (j : Nat) (w : Batch), (rollingWindows env raw)[j]? = some w →
        ∃ a, w.input_mask = listSlice a env.seq_length (rollingArrays env raw).attention_mask)
    ∧ rollingWindows env raw ≠ []
    ∧ ((rollingWindows env raw).getD 0 ⟨[], [], [], []⟩).input_tokens[0]? = some env.bos_id
    ∧ ((rollingWindows env raw).getD 0 ⟨[], [], [], []⟩).input_mask[0]?
        = (rollingArrays env raw).attention_mask[0]?
    ∧ (rollingArrays env raw).attention_mask[0]? = some 1
    ∧ (∀ b r, loglikelihoodRollingOp (envWithBos env b) raw r
        = loglikelihoodRollingOp env raw r) := by
  have ham := rollingArrays_am_length env raw
  have hle := rollingArrays_seq_le env raw
  have hw0 : (rollingWindows env raw)[0]? = some
      (windowAt env.seq_length (rollingArrays env raw).input_tokens
        (rollingArrays env raw).output_tokens (rollingArrays env raw).attention_mask 0) := by
    rw [rollingWindows_getElem? env raw 0 hseq, if_pos (by omega), Nat.zero_mul]
  have hnormal0 : ¬ (rollingArrays env raw).output_tokens.length < 0 + env.seq_length := by
    omega
  refine ⟨rfl, ?_, ?_, ?_, ?_, ?_, ?_⟩
  · intro j w hw
    rw [rollingWindows_getElem? env raw j hseq] at hw
    by_cases hj : j * env.seq_length < (rollingArrays env raw).output_tokens.length
    · rw [if_pos hj] at hw
      obtain rfl := (Option.some_inj.mp hw).symm
      unfold windowAt
      by_cases hfin : (rollingArrays env raw).output_tokens.length
          < j * env.seq_length + env.seq_length
      · rw [if_pos hfin]
        refine ⟨(rollingArrays env raw).attention_mask.length - env.seq_length, ?_⟩
        show (rollingArrays env raw).attention_mask.drop _ = listSlice _ _ _
        unfold listSlice
        rw [List.take_of_length_le (by rw [List.length_drop]; omega)]
      · rw [if_neg hfin]
        exact ⟨j * env.seq_length, rfl⟩
    · rw [if_neg hj] at hw
      exact absurd hw (by simp)
  · intro hc
    have : (rollingWindows env raw)[0]? = none := by rw [hc]; rfl
    rw [hw0] at this
    exact absurd this (by simp)
  · rw [List.getD_eq_getElem?_getD, hw0]
    unfold windowAt
    rw [if_neg hnormal0]
    show (listSlice 0 env.seq_length (rollingArrays env raw).input_tokens)[0]? = _
    unfold listSlice
    rw [List.drop_zero, List.getElem?_take_of_lt hseq]
    exact rollingArrays_it_head env raw
  · rw [List.getD_eq_getElem?_getD, hw0]
    unfold windowAt
    rw [if_neg hnormal0]
    show (listSlice 0 env.seq_length (rollingArrays env raw).attention_mask)[0]? = _
    unfold listSlice
    rw [List.drop_zero, List.getElem?_take_of_lt hseq]
  · obtain ⟨x, xs, rfl⟩ : ∃ x xs, raw = x :: xs := by
      cases raw with
      | nil => exact absurd rfl hraw
      | cons x xs => exact ⟨x, xs, rfl⟩
    unfold rollingArrays
    by_cases hp : (x :: xs).length < env.seq_length
    · simp only [if_pos hp]
      simp
    · simp only [if_neg hp]
      simp
  · intro b r
    show windowsFold (envWithBos env b) (rollingWindows (envWithBos env b) raw) r 0 true
      = windowsFold env (rollingWindows env raw) r 0 true
    have hwe : rollingWindows (envWithBos env b) raw = rollingWindows env raw := rfl
    rw [hwe, windowsFold_envWithBos]

/-- Claim C4 witness: the general statement instantiated at a concrete
session and two-token text; the first original attention bit (1) is the
mask bit of the bos position of the first window. -/
theorem claim4_witness :
    (rollingArrays envA [5, 6]).attention_mask[0]? = some 1 :=
  (claim4_rolling_unshifted_input_mask envA [5, 6] (by decide)
    (by decide)).2.2.2.2.2.1

/-- Claim C1 (amended): for a text whose tokenization is no longer than
`seq_length`, the rolling scorer runs exactly one window covering the whole
padded sequence — with the unshifted attention mask as both input and
output mask — and returns that single executor result unchanged, advancing
the rng once.  It does not in general return the same values as the
single-window `loglikelihood` scorer, because the two construct different
batches (see the counterexample). -/
theorem claim1_single_window (env : Env Rng) (raw : List Nat) (r : Rng)
    (hseq : 1 ≤ env.seq_length) (hlen : raw.length ≤ env.seq_length) :
    rollingWindows env raw =
      [⟨(rollingArrays env raw).input_tokens, (rollingArrays env raw).output_tokens,
        (rollingArrays env raw).attention_mask, (rollingArrays env raw).attention_mask⟩]
    ∧ loglikelihoodRollingOp env raw r =
        (env.execLL r
          ⟨(rollingArrays env raw).input_tokens, (rollingArrays env raw).output_tokens,
           (rollingArrays env raw).attention_mask, (rollingArrays env raw).attention_mask⟩,
         env.nextRng r, [r]) := by
  have htot : (rollingArrays env raw).output_tokens.length = env.seq_length := by
    rw [rollingArrays_ot_length]
    omega
  have hit := rollingArrays_it_length env raw hseq
  have ham := rollingArrays_am_length env raw
  have hwins : rollingWindows env raw =
      [⟨(rollingArrays env raw).input_tokens, (rollingArrays env raw).output_tokens,
        (rollingArrays env raw).attention_mask, (rollingArrays env raw).attention_mask⟩] := by
    have hcount : ((rollingArrays env raw).output_tokens.length + env.seq_length - 1)
        / env.seq_length = 1 := by
      rw [htot]
      exact Nat.div_eq_of_lt_le (by omega) (by omega)
    simp only [rollingWindows, pyRange]
    rw [hcount]
    simp only [List.range_succ, List.range_zero, List.nil_append, List.map_cons,
      List.map_nil, Nat.zero_mul]
    refine congrArg₂ _ ?_ rfl
    unfold windowAt
    rw [if_neg (by omega)]
    unfold listSlice
    simp only [List.drop_zero]
    rw [List.take_of_length_le (by omega), List.take_of_length_le (by omega),
      List.take_of_length_le (by omega)]
  refine ⟨hwins, ?_⟩
  show windowsFold env (rollingWindows env raw) r 0 true = _
  rw [hwins]
  simp only [windowsFold]
  simp

/-- Claim C1 counterexample: at a session whose executor reports the first
input-mask bit, the rolling scorer and the single-window scorer disagree on
a two-token text (tokenization length 2 ≤ seq_length 4): the rolling window
carries the unshifted attention mask (first bit 1), while `loglikelihood`
carries the shifted, flag-gated mask (first bit 0), so both the returned
loglikelihood values and the greedy flags differ. -/
theorem claim1_counterexample :
    (loglikelihoodRollingOp envA [5, 6] 0).1.2 = true
    ∧ (loglikelihoodOp envA [] [5, 6] 0).1.2 = false
    ∧ (loglikelihoodRollingOp envA [5, 6] 0).1 ≠ (loglikelihoodOp envA [] [5, 6] 0).1 := by
  refine ⟨by decide, by decide, fun h => ?_⟩
  have h2 := congrArg Prod.snd h
  rw [(by decide : (loglikelihoodRollingOp envA [5, 6] 0).1.2 = true),
    (by decide : (loglikelihoodOp envA [] [5, 6] 0).1.2 = false)] at h2
  exact Bool.noConfusion h2

/-- Claim C1 witness: the amended single-window statement instantiated at
the same concrete session and two-token text. -/
theorem claim1_witness :
    loglikelihoodRollingOp envA [5, 6] 0 =
      (envA.execLL 0
        ⟨(rollingArrays envA [5, 6]).input_tokens, (rollingArrays envA [5, 6]).output_tokens,
         (rollingArrays envA [5, 6]).attention_mask, (rollingArrays envA [5, 6]).attention_mask⟩,
       envA.nextRng 0, [0]) :=
  (claim1_single_window envA [5, 6] 0 (by decide) (by decide)).2

lemma windowsFold_rng (env : Env Rng) :
    ∀ (bs : List Batch) (r : Rng) (acc : ℚ) (g : Bool),
      (windowsFold env bs r acc g).2.2 =
        (List.range (windowsFold env bs r acc g).2.2.length).map (fun i => env.nextRng^[i] r)
      ∧ (windowsFold env bs r acc g).2.1 =
          env.nextRng^[(windowsFold env bs r acc g).2.2.length] r := by
  intro bs
  induction bs with
  | nil => intro r acc g; exact ⟨rfl, rfl⟩
  | cons b bs ih =>
    intro r acc g
    simp only [windowsFold]
    obtain ⟨h1, h2⟩ := ih (env.nextRng r) (acc + (env.execLL r b).1) ((env.execLL r b).2 && g)
    constructor
    · show r :: _ = _
      rw [List.length_cons, range_map_iterate_succ, ← h1]
    · show _ = _
      rw [List.length_cons, Function.iterate_succ_apply]
      exact h2

lemma greedyLoop_rng (env : Env Rng) (stops : List (List Char)) (ml : Int) :
    ∀ (fuel : Nat) (pf tg : List Char) (tl : Int) (r : Rng),
      (greedyLoop env stops ml fuel pf tg tl r).2.2 =
        (List.range (greedyLoop env stops ml fuel pf tg tl r).2.2.length).map
          (fun i => env.nextRng^[i] r)
      ∧ (greedyLoop env stops ml fuel pf tg tl r).2.1 =
          env.nextRng^[(greedyLoop env stops ml fuel pf tg tl r).2.2.length] r := by
  intro fuel
  induction fuel with
  | zero => intro pf tg tl r; exact ⟨rfl, rfl⟩
  | succ n ih =>
    intro pf tg tl r
    by_cases h : tl < ml
    · simp only [greedyLoop, if_pos h]
      split
      · constructor
        · show [r] = _
          simp
        · show env.nextRng r = _
          simp
      · obtain ⟨h1, h2⟩ := ih (pf ++ env.decode (env.execGreedy r (greedyBatch env pf)))
          ((stopPass stops (tg ++ env.decode (env.execGreedy r (greedyBatch env pf)))).1)
          (tl + (env.execGreedy r (greedyBatch env pf)).length) (env.nextRng r)
        constructor
        · show r :: _ = _
          rw [List.length_cons, range_map_iterate_succ, ← h1]
        · show _ = _
          rw [List.length_cons, Function.iterate_succ_apply]
          exact h2
    · simp only [greedyLoop, if_neg h]
      exact ⟨rfl, rfl⟩

lemma greedyUntilOp_rng (env : Env Rng) :
    ∀ (pairs : List (List Char × StopSpec)) (ml : Int) (r : Rng),
      (greedyUntilOp env pairs ml r).2.2 =
        (List.range (greedyUntilOp env pairs ml r).2.2.length).map (fun i => env.nextRng^[i] r)
      ∧ (greedyUntilOp env pairs ml r).2.1 =
          env.nextRng^[(greedyUntilOp env pairs ml r).2.2.length] r := by
  intro pairs
  induction pairs with
  | nil => intro ml r; exact ⟨rfl, rfl⟩
  | cons p rest ih =>
    intro ml r
    obtain ⟨pf, ut⟩ := p
    simp only [greedyUntilOp]
    obtain ⟨g1, g2⟩ := greedyLoop_rng env ut.toList ml ml.toNat pf [] 0 r
    obtain ⟨h1, h2⟩ := ih ml ((greedyLoop env ut.toList ml ml.toNat pf [] 0 r).2.1)
    rw [g2] at h1 h2
    constructor
    · show _ ++ _ = _
      rw [g2, List.length_append, range_map_iterate_add, ← g1, ← h1]
    · show _ = _
      rw [g2, h2, List.length_append, Nat.add_comm]
      exact (Function.iterate_add_apply env.nextRng _ _ r).symm


lemma runOp_rng (env : Env Rng) (op : Op) (r : Rng) :
    (runOp env op r).2 =
      (List.range (runOp env op r).2.length).map (fun i => env.nextRng^[i] r)
    ∧ (runOp env op r).1 = env.nextRng^[(runOp env op r).2.length] r := by
  cases op with
  | score p c =>
    simp only [runOp, loglikelihoodOp]
    exact ⟨by simp, by simp⟩
  | scoreRolling t => exact windowsFold_rng env (rollingWindows env t) r 0 true
  | gen t =>
    simp only [runOp, generateOp]
    exact ⟨by simp, by simp⟩
  | genUntil ps ml => exact greedyUntilOp_rng env ps ml r

lemma runOps_rng (env : Env Rng) :
    ∀ (ops : List Op) (r : Rng),
      (runOps env ops r).2 =
        (List.range (runOps env ops r).2.length).map (fun i => env.nextRng^[i] r)
      ∧ (runOps env ops r).1 = env.nextRng^[(runOps env ops r).2.length] r := by
  intro ops
  induction ops with
  | nil => intro r; exact ⟨rfl, rfl⟩
  | cons op ops ih =>
    intro r
    simp only [runOps]
    obtain ⟨g1, g2⟩ := runOp_rng env op r
    obtain ⟨h1, h2⟩ := ih ((runOp env op r).1)
    rw [g2] at h1 h2
    constructor
    · show _ ++ _ = _
      rw [g2, List.length_append, range_map_iterate_add, ← g1, ← h1]
    · show _ = _
      rw [g2, h2, List.length_append, Nat.add_comm]
      exact (Function.iterate_add_apply env.nextRng _ _ r).symm

/-- Claim C6: in a serialized run of the four operations, every executor
invocation observes the stored rng, which is then replaced exactly once by
the next-state value — one advance per invocation, including one per
sliding window — so the trace of observed rng values is exactly the
iterates of the rng advance from the initial state, the final stored state
is the next iterate, and (when the iterates from the initial state never
repeat) no two invocations observe the same rng value. -/
theorem claim6_rng_threading (env : Env Rng) (ops : List Op) (r₀ : Rng)
    (hinj : Function.Injective fun n : Nat => env.nextRng^[n] r₀) :
    (runOps env ops r₀).2 =
      (List.range (runOps env ops r₀).2.length).map (fun i => env.nextRng^[i] r₀)
    ∧ (runOps env ops r₀).1 = env.nextRng^[(runOps env ops r₀).2.length] r₀
    ∧ (runOps env ops r₀).2.Pairwise (fun a b => a ≠ b) := by
  obtain ⟨h1, h2⟩ := runOps_rng env ops r₀
  refine ⟨h1, h2, ?_⟩
  rw [h1]
  exact List.Nodup.map hinj (List.nodup_range _)

/-- Claim C6 witness: a concrete serialized run (one `loglikelihood`, one
two-window `loglikelihood_rolling`, one `generate`, one two-iteration
`greedy_until`) against the successor rng; the five invocations observe
five distinct states. -/
theorem claim6_witness :
    (runOps envA opsA 0).2 =
      (List.range (runOps envA opsA 0).2.length).map (fun i => envA.nextRng^[i] 0)
    ∧ (runOps envA opsA 0).1 = envA.nextRng^[(runOps envA opsA 0).2.length] 0
    ∧ (runOps envA opsA 0).2.Pairwise (fun a b => a ≠ b) :=
  claim6_rng_threading envA opsA 0 (by
    intro a b h
    have h' : Nat.succ^[a] 0 = Nat.succ^[b] 0 := h
    rw [succ_iterate, succ_iterate] at h'
    omega)

lemma windowsFoldF_fail (execF : Rng → Batch → Option (ℚ × Bool)) (f : Rng → Rng) :
    ∀ (bs : List Batch) (k : Nat) (r : Rng) (acc : ℚ) (g : Bool),
      k < bs.length →
      (∀ j, j < k → (execF (f^[j] r) (bs.getD j ⟨[], [], [], []⟩)).isSome = true) →
      execF (f^[k] r) (bs.getD k ⟨[], [], [], []⟩) = none →
      windowsFoldF execF f bs r acc g = (none, f^[k] r) := by
  intro bs
  induction bs with
  | nil =>
    intro k r acc g hk _ _
    exact absurd hk (by simp)
  | cons b bs ih =>
    intro k r acc g hk hsucc hfail
    cases k with
    | zero =>
      simp only [List.getD_cons_zero, Function.iterate_zero_apply] at hfail
      simp only [windowsFoldF, hfail]
      rfl
    | succ k' =>
      have h0 := hsucc 0 (by omega)
      simp only [List.getD_cons_zero, Function.iterate_zero_apply] at h0
      obtain ⟨x, hx⟩ := Option.isSome_iff_exists.mp h0
      simp only [windowsFoldF, hx]
      rw [Function.iterate_succ_apply]
      refine ih k' (f r) (acc + x.1) (x.2 && g) (by simpa using hk) ?_ ?_
      · intro j hj
        have := hsucc (j + 1) (by omega)
        rw [List.getD_cons_succ, Function.iterate_succ_apply] at this
        exact this
      · have := hfail
        rw [List.getD_cons_succ, Function.iterate_succ_apply] at this
        exact this

/-- Claim C8: if an executor invocation inside the rolling scorer fails
(after any number of successful window invocations), the failure propagates
as a hard failure for the request and the stored rng is left exactly as it
was before the failing invocation — the stored state is replaced only after
an invocation returns successfully. -/
theorem claim8_fail_preserves_rng (env : Env Rng)
    (execF : Rng → Batch → Option (ℚ × Bool)) (raw : List Nat) (r : Rng) (k : Nat)
    (hk : k < (rollingWindows env raw).length)
    (hsucc : ∀ j, j < k →
      (execF (env.nextRng^[j] r)
        ((rollingWindows env raw).getD j ⟨[], [], [], []⟩)).isSome = true)
    (hfail : execF (env.nextRng^[k] r)
      ((rollingWindows env raw).getD k ⟨[], [], [], []⟩) = none) :
    loglikelihoodRollingF env execF raw r = (none, env.nextRng^[k] r) :=
  windowsFoldF_fail execF env.nextRng (rollingWindows env raw) k r 0 true hk hsucc hfail

/-- A fallible executor that succeeds only on rng state 0. -/
def execFW : Nat → Batch → Option (ℚ × Bool) :=
  fun r _ => if r = 0 then some (0, true) else none

/-- Claim C8 witness: a 3-token text with `seq_length = 2` yields two
windows; the first succeeds at state 0, the second fails at state 1, and
the rolling scorer returns failure with the stored rng still at 1 (its
value before the failing invocation). -/
theorem claim8_witness :
    loglikelihoodRollingF envF execFW [7, 7, 7] 0 = (none, envF.nextRng^[1] 0) :=
  claim8_fail_preserves_rng envF execFW [7, 7, 7] 0 1 (by decide) (by decide) (by decide)

/-- Claim C5 witness: the batch-construction statement instantiated at a
concrete session (`input_length = 2`, `seq_length = 4`), one-token prefix
and two-token continuation. -/
theorem claim5_witness :
    (loglikelihoodBatch envA [3] [5, 6]).output_tokens.length = envA.seq_length :=
  (claim5_score_batch_construction envA [3] [5, 6] (by decide) (by decide)).2.2.2.1

/-- Claim C10 witness: `greedy_until` with `max_length = -1` performs no
executor invocation, leaves the rng at its initial value, and returns the
empty string for the single pair. -/
theorem claim10_witness :
    greedyUntilOp envA [([], StopSpec.one ['z'])] (-1) 0 = ([some []], 0, []) :=
  claim10_nonpositive_max_length envA [([], StopSpec.one ['z'])] (-1) 0 (by decide)

end OptServe
